import Mathlib

/-!
# Verification of the apktool backup/restore utility

Shallow embedding of `src/main.rs`, a CLI that backs up and reinstalls
third-party Android packages through the `adb` device bridge.  External
effects (process invocation, filesystem, stdin) are modelled by explicit
parameters and oracles; strings whose character structure matters are
modelled as `List Char` so that definitions evaluate by kernel reduction.
-/

namespace Apktool

/-! ## Character-list utilities (Rust `str`/`Path` operations) -/

/-- Split a character list at every occurrence of the separator, keeping
empty segments (the semantics of Rust's `split`). -/
def splitOnChar (sep : Char) : List Char → List (List Char)
  | [] => [[]]
  | c :: rest =>
    if c = sep then [] :: splitOnChar sep rest
    else
      match splitOnChar sep rest with
      | [] => [[c]]
      | l :: ls => (c :: l) :: ls

/-- Drop one trailing `'\r'`, as Rust's `str::lines` does on each line. -/
def stripCR (l : List Char) : List Char :=
  if l.getLast? = some '\r' then l.dropLast else l

/-- Rust's `str::lines`: split on `'\n'` with the terminator optional (a
trailing newline yields no final empty line), stripping a trailing `'\r'`
from every line. -/
def rustLines (s : List Char) : List (List Char) :=
  let parts := splitOnChar '\n' s
  let parts := if parts.getLast? = some [] then parts.dropLast else parts
  parts.map stripCR

/-- Rust's `str::trim` restricted to ASCII whitespace (`Char.isWhitespace`
covers space, tab, CR, LF, which is what adb output contains). -/
def trimL (l : List Char) : List Char :=
  ((l.dropWhile Char.isWhitespace).reverse.dropWhile Char.isWhitespace).reverse

/-- Whether `pat` occurs as a contiguous substring (Rust `str::contains`). -/
def containsSub (pat : List Char) : List Char → Bool
  | [] => pat.isEmpty
  | c :: rest => pat.isPrefixOf (c :: rest) || containsSub pat rest

/-- Fuel-driven worker for `removeAll`; the fuel only serves to make the
recursion structural, `removeAll` always supplies enough. -/
def removeAllAux (pat : List Char) : Nat → List Char → List Char
  | 0, s => s
  | _ + 1, [] => []
  | fuel + 1, c :: rest =>
    if pat.isPrefixOf (c :: rest) ∧ pat ≠ [] then
      removeAllAux pat fuel ((c :: rest).drop pat.length)
    else c :: removeAllAux pat fuel rest

/-- Rust's `str::replace(pat, "")`: delete every non-overlapping occurrence
of `pat`, scanning left to right. -/
def removeAll (pat s : List Char) : List Char :=
  removeAllAux pat s.length s

/-- Split the reverse of a file name at its first `'.'` (hence the last dot
of the name): returns `(reversed extension, reversed stem)`. -/
def revSplitDot : List Char → Option (List Char × List Char)
  | [] => none
  | c :: rest =>
    if c = '.' then some ([], rest)
    else
      match revSplitDot rest with
      | some (e, s) => some (c :: e, s)
      | none => none

/-- Rust's `Path::file_stem` and `Path::extension` on a file name: the
extension is what follows the last dot, except that a dot in first position
(hidden files) does not start an extension. -/
def fileStemExtL (name : List Char) : List Char × Option (List Char) :=
  match revSplitDot name.reverse with
  | some (extRev, stemRev) =>
    if stemRev = [] then (name, none) else (stemRev.reverse, some extRev.reverse)
  | none => (name, none)

/-- The extension rendered as Rust's `format!(".{}", ext)` (empty when there
is no extension), exactly as `extract_apk` builds it. -/
def extSuffixL (name : List Char) : List Char :=
  match (fileStemExtL name).2 with
  | some e => '.' :: e
  | none => []

/-- Rust's `Path::file_name` on a slash-separated path: the last component,
ignoring empty components and `"."`, and yielding `none` for `".."` or for a
path with no component. -/
def fileNameL (path : List Char) : Option (List Char) :=
  let comps := (splitOnChar '/' path).filter (fun c => c ≠ [] ∧ c ≠ ['.'])
  match comps.getLast? with
  | none => none
  | some c => if c = ['.', '.'] then none else some c

/-- Numeric value of a digit string. -/
def digitsVal (ds : List Char) : Nat :=
  ds.foldl (fun acc c => acc * 10 + (c.toNat - '0'.toNat)) 0

/-- Rust's `str::parse::<usize>`: an optional leading `'+'` followed by at
least one digit.  (The model uses unbounded `Nat`; Rust additionally rejects
values that overflow `usize`, which every claim below treats the same way as
any other out-of-range value.) -/
def parseUsizeL (s : List Char) : Option Nat :=
  match s with
  | [] => none
  | _ =>
    let ds := match s with
      | '+' :: r => r
      | _ => s
    if ds ≠ [] ∧ ds.all Char.isDigit then some (digitsVal ds) else none

/-! ## `perform_backup` (`main.rs` lines 226-264): package selection -/

/-- `main.rs:241-244`: the packages selected for backup are the device
packages whose name is not contained in the base-backup listing. -/
def packagesToBackup (devicePackages basePackages : List String) : List String :=
  devicePackages.filter (fun pkg => !(basePackages.contains pkg))

/-- Filesystem effect of `perform_backup` on the target directory's listing:
`extract_apk` (`main.rs:340-346`) queries the package's paths first (oracle
`pathsOk`, modelling `get_package_paths` success) and only then creates the
package subdirectory when it does not exist yet.  `target0` is the target
directory's listing before the run. -/
def performBackupDirAfter (pathsOk : String → Bool) (target0 devicePackages basePackages : List String) :
    List String :=
  (packagesToBackup devicePackages basePackages).foldl
    (fun acc pkg =>
      if pathsOk pkg then (if acc.contains pkg then acc else acc ++ [pkg]) else acc)
    target0

/-- `differential_backup` (`main.rs:222-223`) calls
`perform_backup(&base_backup, Some(&base_backup))`: the target directory IS
the selected base backup, so the initial listing and the base listing are
the same `base` argument. -/
def differentialDirAfter (pathsOk : String → Bool) (base devicePackages : List String) : List String :=
  performBackupDirAfter pathsOk base devicePackages base

/-! ## `main` dispatch (`main.rs` lines 10-27) -/

/-- What one `main` invocation prints on stderr and returns.  The mode
results for `backup`/`install` are parameters. -/
structure MainBehavior where
  printed : List String
  result : Except String Unit

/-- The usage line, `main.rs:14` and `main.rs:23`. -/
def usageMsg (prog : String) : String :=
  "Usage: " ++ prog ++ " <backup|install>"

/-- `main` (`main.rs:10-27`).  A process invocation supplies the program
name as `args[0]`, so the model separates `prog` from the remaining
arguments: `args = prog :: argv`, and `args.len() < 2` is `argv = []`. -/
def mainRun (prog : String) (argv : List String)
    (backupRes installRes : Except String Unit) : MainBehavior :=
  match argv with
  | [] => ⟨[usageMsg prog], Except.ok ()⟩
  | first :: _ =>
    if first = "backup" then ⟨[], backupRes⟩
    else if first = "install" then ⟨[], installRes⟩
    else ⟨["Invalid argument: " ++ first, usageMsg prog], Except.ok ()⟩

/-! ## Mode preconditions (`main.rs` lines 29-53, 131-145, 196-204) -/

/-- How a mode run can leave its precondition phase.  `panicked` never
arises from the modelled branches; it is present so that "does not crash"
is expressible. -/
inductive ModeOutcome where
  | earlyOk (msg : String)
  | earlyErr (msg : String)
  | panicked (msg : String)
  | proceed

/-- Whether the mode returned early (with `Ok` or `Err`) instead of
proceeding or panicking. -/
def ModeOutcome.isEarlyExit : ModeOutcome → Bool
  | earlyOk _ => true
  | earlyErr _ => true
  | panicked _ => false
  | proceed => false

/-- Precondition phase of `run_install_mode` (`main.rs:29-53`): missing
adb and disconnected device print and return `Ok`; a missing backup root
returns `Err`; an empty backup listing prints and returns `Ok`. -/
def installModePre (adbAvailable deviceConnected backupRootExists : Bool)
    (entries : List String) : ModeOutcome :=
  if !adbAvailable then ModeOutcome.earlyOk "Error: ADB command not found."
  else if !deviceConnected then
    ModeOutcome.earlyOk "Error : Device is disconnected. Please check device connection."
  else if !backupRootExists then
    ModeOutcome.earlyErr "Backup directory not found. Please run with 'backup' first."
  else if entries.isEmpty then ModeOutcome.earlyOk "No backups found."
  else ModeOutcome.proceed

/-- Precondition phase of `run_backup_mode` (`main.rs:131-145`); an absent
backup root is created there, not an early exit. -/
def backupModePre (adbAvailable deviceConnected : Bool) : ModeOutcome :=
  if !adbAvailable then ModeOutcome.earlyOk "Error: ADB command not found."
  else if !deviceConnected then
    ModeOutcome.earlyOk "Error : Device is disconnected. Please check device connection."
  else ModeOutcome.proceed

/-- Precondition phase of `differential_backup` (`main.rs:196-204`). -/
def differentialPre (entries : List String) : ModeOutcome :=
  if entries.isEmpty then ModeOutcome.earlyOk "No backups found."
  else ModeOutcome.proceed

/-! ## Install commands and per-item loops (`main.rs` lines 77-128, 250-261) -/

/-- The adb invocation chosen for one package directory. -/
inductive InstallCmd where
  | single (apk : List Char)
  | multiple (apks : List (List Char))

/-- Result of one attempted adb install invocation (`main.rs:107-124`):
success, a non-success exit status, or a process spawn error. -/
inductive InstallAttempt where
  | success
  | failedStatus (stdoutText stderrText : String)
  | execError (msg : String)

/-- What `run_install_mode` does with one entry of the selected backup. -/
inductive DirOutcome where
  | notDir
  | noApks
  | attempted (cmd : InstallCmd) (res : InstallAttempt)

/-- `main.rs:82-86`: the files of a package directory whose extension is
`"apk"`. -/
def apkFilesOf (files : List (List Char)) : List (List Char) :=
  files.filter (fun f => (fileStemExtL f).2 == some ['a', 'p', 'k'])

/-- `main.rs:88-105`: no apk files means no adb invocation (a message is
reported); exactly one means `adb install` with that file; more than one
means `adb install-multiple` with all of them. -/
def installCmdForDir (files : List (List Char)) : Option InstallCmd :=
  match apkFilesOf files with
  | [] => none
  | [a] => some (InstallCmd.single a)
  | a :: b :: rest => some (InstallCmd.multiple (a :: b :: rest))

/-- The per-package loop of `perform_backup` (`main.rs:250-261`): every
selected package is attempted in order, a failed extraction is reported and
the loop continues, and the function finally returns `Ok(())`.  `extract`
is the outcome oracle for `extract_apk`. -/
def backupLoop (extract : String → Except String Unit) :
    List String → List (String × Bool) × Except String Unit
  | [] => ([], Except.ok ())
  | p :: rest =>
    let ok := match extract p with
      | Except.ok _ => true
      | Except.error _ => false
    let next := backupLoop extract rest
    ((p, ok) :: next.1, next.2)

/-- The per-directory loop of `run_install_mode` (`main.rs:77-126`) over
the entries of the selected backup (assuming the directory iteration itself
yields them all): non-directories are skipped, directories without apk
files are reported, install failures are reported, and in every case the
loop continues; the mode finally returns `Ok(())`. -/
def installLoop (isDir : List Char → Bool) (filesOf : List Char → List (List Char))
    (attempt : InstallCmd → InstallAttempt) :
    List (List Char) → List (List Char × DirOutcome) × Except String Unit
  | [] => ([], Except.ok ())
  | d :: rest =>
    let out :=
      if isDir d then
        match installCmdForDir (filesOf d) with
        | none => DirOutcome.noApks
        | some cmd => DirOutcome.attempted cmd (attempt cmd)
      else DirOutcome.notDir
    let next := installLoop isDir filesOf attempt rest
    ((d, out) :: next.1, next.2)

/-! ## `extract_apk` local naming and pull loop (`main.rs` lines 340-395) -/

/-- `extract_apk`'s alternate local file name on collision
(`main.rs:358-364`): `format!("{}_{}{}", stem, index + 1, extension)`,
where `extension` carries its leading dot when present. -/
def altNameL (index : Nat) (name : List Char) : List Char :=
  (fileStemExtL name).1 ++ ('_' :: (Nat.repr (index + 1)).toList) ++ extSuffixL name

/-- The local file name `extract_apk` finally pulls to: the remote file
name itself, or the alternate name when that file already exists in the
package directory (`existing` is the directory's listing). -/
def finalLocalNameL (existing : List (List Char)) (index : Nat) (name : List Char) : List Char :=
  if existing.contains name then altNameL index name else name

/-- `extract_apk`'s pull loop (`main.rs:350-392`) over the remote paths,
starting from listing `dir` of the package subdirectory at loop position
`i`.  `materialized i p` tells whether the `adb pull` of the `i`-th path
`p` exited successfully and left the local file in place (the checks at
`main.rs:377` and `main.rs:386`; both failure paths warn and continue).  A
path without a file name aborts the extraction (`main.rs:351-353`). -/
def extractApkGo (materialized : Nat → List Char → Bool) :
    List (List Char) → Nat → List (List Char) → Except String (List (List Char))
  | dir, _, [] => Except.ok dir
  | dir, i, p :: rest =>
    match fileNameL p with
    | none => Except.error "Failed to get APK file name."
    | some name =>
      let finalName := finalLocalNameL dir i name
      let dir' :=
        if materialized i p then
          (if dir.contains finalName then dir else dir ++ [finalName])
        else dir
      extractApkGo materialized dir' (i + 1) rest

/-! ## Output parsing (`main.rs` lines 293-305 and 321-331) -/

/-- The tag prefixing package lines in `pm list packages` / `pm path`
output. -/
def pkgTag : List Char := "package:".toList

/-- The parsing shared by `get_third_party_packages` and
`get_package_paths`: keep the lines starting with `"package:"`, apply
`line.replace("package:", "")` — which removes every occurrence of the tag,
not only the leading one — and trim.  (`get_package_paths` additionally
errors when the result is empty.) -/
def parsePackageOutput (out : List Char) : List (List Char) :=
  (rustLines out).filterMap fun line =>
    if pkgTag.isPrefixOf line then some (trimL (removeAll pkgTag line)) else none

/-- The parse described by the spec's words: remove the leading tag only,
then trim.  Kept to compare the claimed behaviour against the code's. -/
def parsePackageOutputClaimed (out : List Char) : List (List Char) :=
  (rustLines out).filterMap fun line =>
    if pkgTag.isPrefixOf line then some (trimL (line.drop pkgTag.length)) else none

/-! ## Numeric backup selection (`main.rs` lines 60-75 and 211-222) -/

/-- The selection loop of `run_install_mode` (`main.rs:60-75`): re-prompts
until an input line parses to `n` with `1 <= n <= numEntries`; yields the
accepted `n`, or `none` when the input lines run out. -/
def installSelect (numEntries : Nat) : List (List Char) → Option Nat
  | [] => none
  | inp :: rest =>
    match parseUsizeL (trimL inp) with
    | some n => if 1 ≤ n ∧ n ≤ numEntries then some n else installSelect numEntries rest
    | none => installSelect numEntries rest

/-- The index `differential_backup` computes (`main.rs:216`): a failed
parse becomes `0` through `unwrap_or(0)`. -/
def diffSelectIndex (inp : List Char) : Nat :=
  (parseUsizeL (trimL inp)).getD 0

/-- The guard at `main.rs:217`: the selection is used only when the index
is neither `0` nor greater than the number of entries. -/
def diffSelectionValid (numEntries : Nat) (inp : List Char) : Bool :=
  !(diffSelectIndex inp == 0 || decide (numEntries < diffSelectIndex inp))

end Apktool

namespace Apktool

/-! ## Helper lemmas -/

theorem mem_packagesToBackup (device base : List String) (p : String) :
    p ∈ packagesToBackup device base ↔ p ∈ device ∧ p ∉ base := by
  simp [packagesToBackup, List.mem_filter, List.contains, List.elem_iff]

theorem packagesToBackup_sublist (device base : List String) :
    List.Sublist (packagesToBackup device base) device :=
  List.filter_sublist device

/-! ## Claim theorems -/

/-- C1: the packages `perform_backup` selects are exactly the set difference
of the device packages minus the base-backup packages (a device package is
kept iff it is absent from the base listing), and the selection is a sublist
of the device listing, so the device-list order is preserved. -/
theorem C1_backup_set_difference (device base : List String) :
    (∀ p, p ∈ packagesToBackup device base ↔ p ∈ device ∧ p ∉ base) ∧
      List.Sublist (packagesToBackup device base) device :=
  ⟨fun p => mem_packagesToBackup device base p, packagesToBackup_sublist device base⟩

theorem mem_backupFold (pathsOk : String → Bool) (p : String) :
    ∀ (l acc : List String),
      p ∈ l.foldl (fun acc pkg =>
          if pathsOk pkg then (if acc.contains pkg then acc else acc ++ [pkg]) else acc) acc ↔
        p ∈ acc ∨ (pathsOk p = true ∧ p ∈ l)
  | [], acc => by simp
  | x :: rest, acc => by
    rw [List.foldl_cons, mem_backupFold pathsOk p rest]
    by_cases hx : pathsOk x = true
    · rw [if_pos hx]
      by_cases hc : acc.contains x = true
      · rw [if_pos hc]
        have hxa : x ∈ acc := by simpa [List.contains, List.elem_iff] using hc
        constructor
        · rintro (h | ⟨hp, h⟩)
          · exact Or.inl h
          · exact Or.inr ⟨hp, List.mem_cons_of_mem x h⟩
        · rintro (h | ⟨hp, h⟩)
          · exact Or.inl h
          · rcases List.mem_cons.mp h with rfl | h'
            · exact Or.inl hxa
            · exact Or.inr ⟨hp, h'⟩
      · rw [if_neg hc]
        constructor
        · rintro (h | ⟨hp, h⟩)
          · rcases List.mem_append.mp h with h' | h'
            · exact Or.inl h'
            · have hpx : p = x := by simpa using h'
              subst hpx
              exact Or.inr ⟨hx, List.mem_cons_self p rest⟩
          · exact Or.inr ⟨hp, List.mem_cons_of_mem x h⟩
        · rintro (h | ⟨hp, h⟩)
          · exact Or.inl (List.mem_append.mpr (Or.inl h))
          · rcases List.mem_cons.mp h with rfl | h'
            · exact Or.inl (List.mem_append.mpr (Or.inr (by simp)))
            · exact Or.inr ⟨hp, h'⟩
    · rw [if_neg hx]
      constructor
      · rintro (h | ⟨hp, h⟩)
        · exact Or.inl h
        · exact Or.inr ⟨hp, List.mem_cons_of_mem x h⟩
      · rintro (h | ⟨hp, h⟩)
        · exact Or.inl h
        · rcases List.mem_cons.mp h with rfl | h'
          · exact absurd hp hx
          · exact Or.inr ⟨hp, h'⟩

theorem mem_performBackupDirAfter (pathsOk : String → Bool) (target0 device base : List String)
    (p : String) :
    p ∈ performBackupDirAfter pathsOk target0 device base ↔
      p ∈ target0 ∨ (pathsOk p = true ∧ p ∈ device ∧ p ∉ base) := by
  unfold performBackupDirAfter
  rw [mem_backupFold, mem_packagesToBackup]

theorem mem_differentialDirAfter (pathsOk : String → Bool) (base device : List String)
    (p : String) :
    p ∈ differentialDirAfter pathsOk base device ↔
      p ∈ base ∨ (pathsOk p = true ∧ p ∈ device ∧ p ∉ base) :=
  mem_performBackupDirAfter pathsOk base device base p

/-- C2 (counterexample): with the base snapshot listing `["a"]` and device
packages `["a", "b"]`, the directory produced by a differential backup still
contains `"a"`, a package already present in the base snapshot — because
`differential_backup` extracts into the base snapshot's own directory. -/
theorem C2_differential_counterexample :
    "a" ∈ differentialDirAfter (fun _ => true) ["a"] ["a", "b"] ∧ "a" ∈ ["a"] := by
  constructor
  · decide
  · decide

/-- C2 (amended): a differential backup extracts exactly the device packages
absent from the selected base snapshot, but it writes them into the base
snapshot's own directory, so the resulting snapshot directory lists the base
packages together with the newly extracted ones. -/
theorem C2_differential_amended (pathsOk : String → Bool) (base device : List String)
    (p : String) :
    p ∈ differentialDirAfter pathsOk base device ↔
      p ∈ base ∨ (pathsOk p = true ∧ p ∈ device ∧ p ∉ base) :=
  mem_differentialDirAfter pathsOk base device p

/-- C4: when the first command-line argument is absent or differs from both
`"backup"` and `"install"`, `main` prints the usage line and returns
`Ok(())`, whatever the two modes would have returned. -/
theorem C4_usage_ok (prog : String) (argv : List String)
    (backupRes installRes : Except String Unit)
    (h : argv = [] ∨ ∃ first rest, argv = first :: rest ∧ first ≠ "backup" ∧ first ≠ "install") :
    (mainRun prog argv backupRes installRes).result = Except.ok () ∧
      usageMsg prog ∈ (mainRun prog argv backupRes installRes).printed := by
  rcases h with rfl | ⟨first, rest, rfl, hb, hi⟩
  · exact ⟨rfl, List.mem_singleton.mpr rfl⟩
  · simp [mainRun, hb, hi]

theorem C4_usage_ok_witness :
    (mainRun "apktool" ["frobnicate"] (Except.error "b") (Except.error "i")).result =
        Except.ok () ∧
      usageMsg "apktool" ∈
        (mainRun "apktool" ["frobnicate"] (Except.error "b") (Except.error "i")).printed :=
  C4_usage_ok "apktool" ["frobnicate"] (Except.error "b") (Except.error "i")
    (Or.inr ⟨"frobnicate", [], rfl, by decide, by decide⟩)

/-- C6: every item is processed and per-item failures never stop the loops:
for any extraction oracle the backup loop visits every selected package in
order and `perform_backup` returns `Ok(())`, and for any install oracle the
install loop visits every entry of the selected backup in order and
`run_install_mode` returns `Ok(())`. -/
theorem C6_per_item_failure_continues (extract : String → Except String Unit)
    (pkgs : List String) (isDir : List Char → Bool)
    (filesOf : List Char → List (List Char)) (attempt : InstallCmd → InstallAttempt)
    (dirs : List (List Char)) :
    ((backupLoop extract pkgs).1.map Prod.fst = pkgs ∧
        (backupLoop extract pkgs).2 = Except.ok ()) ∧
      ((installLoop isDir filesOf attempt dirs).1.map Prod.fst = dirs ∧
        (installLoop isDir filesOf attempt dirs).2 = Except.ok ()) := by
  constructor
  · induction pkgs with
    | nil => exact ⟨rfl, rfl⟩
    | cons p rest ih => exact ⟨by simp [backupLoop, ih.1], by simp [backupLoop, ih.2]⟩
  · induction dirs with
    | nil => exact ⟨rfl, rfl⟩
    | cons d rest ih => exact ⟨by simp [installLoop, ih.1], by simp [installLoop, ih.2]⟩

/-- C7: every precondition failure makes the mode return early — with a
message carried by the early-exit outcome — rather than proceed or panic:
any of the four failures stops `run_install_mode`; a missing bridge or
device stops `run_backup_mode`; an empty backup listing stops
`differential_backup`. -/
theorem C7_precondition_early_exit (adb dev root : Bool) (entries : List String) :
    ((adb = false ∨ dev = false ∨ root = false ∨ entries = []) →
        (installModePre adb dev root entries).isEarlyExit = true) ∧
      ((adb = false ∨ dev = false) → (backupModePre adb dev).isEarlyExit = true) ∧
      (entries = [] → differentialPre entries = ModeOutcome.earlyOk "No backups found.") := by
  refine ⟨?_, ?_, ?_⟩
  · intro h
    cases adb with
    | false => rfl
    | true =>
      cases dev with
      | false => rfl
      | true =>
        cases root with
        | false => rfl
        | true =>
          rcases h with h | h | h | h
          · exact absurd h (by decide)
          · exact absurd h (by decide)
          · exact absurd h (by decide)
          · subst h; rfl
  · intro h
    cases adb with
    | false => rfl
    | true =>
      cases dev with
      | false => rfl
      | true =>
        rcases h with h | h
        · exact absurd h (by decide)
        · exact absurd h (by decide)
  · intro h
    subst h
    rfl

theorem C7_precondition_early_exit_witness :
    (installModePre false true true ["b1"]).isEarlyExit = true ∧
      (backupModePre true false).isEarlyExit = true ∧
      differentialPre [] = ModeOutcome.earlyOk "No backups found." :=
  ⟨(C7_precondition_early_exit false true true ["b1"]).1 (Or.inl rfl),
    (C7_precondition_early_exit true false true ["b1"]).2.1 (Or.inr rfl),
    (C7_precondition_early_exit true true true []).2.2 rfl⟩

/-- C8: the adb invocation for one package directory: no apk file means no
invocation, exactly one apk file means `install` with that file, two or
more mean `install-multiple` with all of them in order. -/
theorem C8_install_command_choice (files : List (List Char)) :
    (apkFilesOf files = [] → installCmdForDir files = none) ∧
      (∀ a, apkFilesOf files = [a] → installCmdForDir files = some (InstallCmd.single a)) ∧
      (2 ≤ (apkFilesOf files).length →
        installCmdForDir files = some (InstallCmd.multiple (apkFilesOf files))) := by
  refine ⟨?_, ?_, ?_⟩
  · intro h
    simp [installCmdForDir, h]
  · intro a h
    simp [installCmdForDir, h]
  · intro h2
    rcases hm : apkFilesOf files with _ | ⟨a, _ | ⟨b, rest⟩⟩
    · rw [hm] at h2; simp at h2
    · rw [hm] at h2; simp at h2
    · simp [installCmdForDir, hm]

theorem C8_install_command_choice_witness :
    installCmdForDir ["a.apk".toList, "b.apk".toList, "c.txt".toList] =
      some (InstallCmd.multiple (apkFilesOf ["a.apk".toList, "b.apk".toList, "c.txt".toList])) :=
  (C8_install_command_choice ["a.apk".toList, "b.apk".toList, "c.txt".toList]).2.2 (by decide)

/-- C10: backup selection never indexes out of bounds: the install-mode
selection loop only ever accepts a number between 1 and the number of
entries (re-prompting otherwise), and in differential backup a failed parse
yields index 0, and an index is used only when the guard establishes
`1 <= index <= numEntries`. -/
theorem C10_selection_in_bounds (numEntries : Nat) (inputs : List (List Char))
    (n : Nat) (inp : List Char) :
    (installSelect numEntries inputs = some n → 1 ≤ n ∧ n ≤ numEntries) ∧
      (diffSelectionValid numEntries inp = true →
        1 ≤ diffSelectIndex inp ∧ diffSelectIndex inp ≤ numEntries) ∧
      (parseUsizeL (trimL inp) = none → diffSelectIndex inp = 0) := by
  refine ⟨?_, ?_, ?_⟩
  · induction inputs with
    | nil => intro h; cases h
    | cons i rest ih =>
      intro h
      simp only [installSelect] at h
      rcases hp : parseUsizeL (trimL i) with _ | m
      · rw [hp] at h
        exact ih h
      · rw [hp] at h
        have h' : (if 1 ≤ m ∧ m ≤ numEntries then some m
            else installSelect numEntries rest) = some n := h
        by_cases hc : 1 ≤ m ∧ m ≤ numEntries
        · rw [if_pos hc] at h'
          injection h' with h'
          subst h'
          exact hc
        · rw [if_neg hc] at h'
          exact ih h'
  · intro h
    simp only [diffSelectionValid, Bool.not_eq_true', Bool.or_eq_false_iff,
      beq_eq_false_iff_ne, ne_eq, decide_eq_false_iff_not, Nat.not_lt] at h
    omega
  · intro h
    simp [diffSelectIndex, h]

theorem C10_selection_in_bounds_witness :
    (1 ≤ 2 ∧ 2 ≤ 3) ∧
      (1 ≤ diffSelectIndex "2".toList ∧ diffSelectIndex "2".toList ≤ 3) :=
  ⟨(C10_selection_in_bounds 3 ["0".toList, "2".toList] 2 "2".toList).1 (by decide),
    (C10_selection_in_bounds 3 [] 0 "2".toList).2.1 (by decide)⟩

/-! ## Stem/extension recombination (for C3) -/

theorem revSplitDot_eq : ∀ (l e s : List Char), revSplitDot l = some (e, s) →
    l = e ++ '.' :: s := by
  intro l
  induction l with
  | nil => intro e s h; cases h
  | cons c rest ih =>
    intro e s h
    simp only [revSplitDot] at h
    by_cases hd : c = '.'
    · rw [if_pos hd] at h
      injection h with h
      injection h with h1 h2
      subst h1
      subst h2
      simp [hd]
    · rw [if_neg hd] at h
      rcases hr : revSplitDot rest with _ | ⟨e', s'⟩
      · rw [hr] at h
        cases h
      · rw [hr] at h
        injection h with h
        injection h with h1 h2
        subst h1
        subst h2
        rw [ih e' s' hr]
        simp

theorem fileStem_extSuffix_eq (name : List Char) :
    (fileStemExtL name).1 ++ extSuffixL name = name := by
  rcases hr : revSplitDot name.reverse with _ | ⟨e, s⟩
  · simp [fileStemExtL, extSuffixL, hr]
  · by_cases hs : s = []
    · simp [fileStemExtL, extSuffixL, hr, hs]
    · have hname : name = s.reverse ++ '.' :: e.reverse := by
        have h1 := revSplitDot_eq name.reverse e s hr
        have h2 : name = (e ++ '.' :: s).reverse := by
          rw [← h1]
          simp
        rw [h2]
        simp
      have hstem : (fileStemExtL name).1 = s.reverse := by
        simp [fileStemExtL, hr, hs]
      have hext : extSuffixL name = '.' :: e.reverse := by
        simp [extSuffixL, fileStemExtL, hr, hs]
      rw [hstem, hext]
      exact hname.symm

/-- C3 (counterexample): in a package directory already containing
`base.apk` and `base_1.apk`, the alternate name generated for `base.apk` at
loop index 0 is `base_1.apk`, which collides with an existing entry: the
code never checks the alternate name for availability. -/
theorem C3_altname_counterexample :
    "base.apk".toList ∈ ["base.apk".toList, "base_1.apk".toList] ∧
      finalLocalNameL ["base.apk".toList, "base_1.apk".toList] 0 "base.apk".toList =
        "base_1.apk".toList ∧
      "base_1.apk".toList ∈ ["base.apk".toList, "base_1.apk".toList] :=
  ⟨by decide, by decide, by decide⟩

/-- C3 (amended): when the local installer path already exists, the
generated alternate name is the stem, an underscore, the 1-based position
of the APK in the package's remote path list, then the extension; stem and
extension recombine to the original file name, so the numeric suffix is
inserted before the extension with stem and extension otherwise unchanged.
The alternate name is not checked against the existing entries, so it can
itself collide. -/
theorem C3_altname_amended (existing : List (List Char)) (index : Nat) (name : List Char)
    (h : existing.contains name = true) :
    finalLocalNameL existing index name =
      (fileStemExtL name).1 ++ ('_' :: (Nat.repr (index + 1)).toList) ++ extSuffixL name ∧
      (fileStemExtL name).1 ++ extSuffixL name = name :=
  ⟨by unfold finalLocalNameL; rw [if_pos h]; rfl, fileStem_extSuffix_eq name⟩

theorem C3_altname_amended_witness :
    finalLocalNameL ["a.apk".toList] 0 "a.apk".toList =
      (fileStemExtL "a.apk".toList).1 ++ ('_' :: (Nat.repr (0 + 1)).toList) ++
        extSuffixL "a.apk".toList ∧
      (fileStemExtL "a.apk".toList).1 ++ extSuffixL "a.apk".toList = "a.apk".toList :=
  C3_altname_amended ["a.apk".toList] 0 "a.apk".toList (by decide)

/-! ## `replace("package:", "")` lemmas (for C5) -/

theorem isPrefixOf_append_drop : ∀ (p l : List Char), p.isPrefixOf l = true →
    p ++ l.drop p.length = l
  | [], l, _ => by simp
  | _ :: _, [], h => by simp [List.isPrefixOf] at h
  | a :: p', b :: l', h => by
    simp only [List.isPrefixOf, Bool.and_eq_true, beq_iff_eq] at h
    obtain ⟨rfl, h2⟩ := h
    simp only [List.length_cons, List.drop_succ_cons, List.cons_append]
    rw [isPrefixOf_append_drop p' l' h2]

theorem isPrefixOf_self_append : ∀ (p t : List Char), p.isPrefixOf (p ++ t) = true
  | [], _ => by simp [List.isPrefixOf]
  | a :: p', t => by simp [List.isPrefixOf, isPrefixOf_self_append p' t]

theorem removeAllAux_of_not_contains (pat : List Char) :
    ∀ (s : List Char) (fuel : Nat), containsSub pat s = false →
      removeAllAux pat fuel s = s := by
  intro s
  induction s with
  | nil =>
    intro fuel _
    cases fuel with
    | zero => rfl
    | succ f => rfl
  | cons c rest ih =>
    intro fuel h
    have h' : pat.isPrefixOf (c :: rest) = false ∧ containsSub pat rest = false := by
      simpa [containsSub] using h
    cases fuel with
    | zero => rfl
    | succ f =>
      simp only [removeAllAux]
      rw [if_neg]
      · rw [ih f h'.2]
      · rintro ⟨h1, _⟩
        rw [h'.1] at h1
        exact Bool.noConfusion h1

theorem removeAll_tag_prepend (pat rest : List Char) (hne : pat ≠ [])
    (h : containsSub pat rest = false) : removeAll pat (pat ++ rest) = rest := by
  unfold removeAll
  cases pat with
  | nil => exact absurd rfl hne
  | cons a p' =>
    simp only [List.cons_append, List.length_cons, List.length_append, removeAllAux]
    rw [if_pos ⟨isPrefixOf_self_append (a :: p') rest, by simp⟩]
    have hd : List.drop (p'.length + 1) (a :: p'.append rest) = rest := by
      rw [List.drop_succ_cons]
      exact List.drop_left p' rest
    rw [hd]
    exact removeAllAux_of_not_contains (a :: p') rest _ h

/-- C5 (counterexample): on the line `package:a package:b` the code's
`replace("package:", "")` removes BOTH occurrences of the tag, producing
`a b`, whereas removing only the leading prefix would produce
`a package:b`; so the parsed result is not in general the prefix-stripped
line. -/
theorem C5_parse_counterexample :
    parsePackageOutput "package:a package:b".toList = ["a b".toList] ∧
      parsePackageOutputClaimed "package:a package:b".toList = ["a package:b".toList] ∧
      parsePackageOutput "package:a package:b".toList ≠
        parsePackageOutputClaimed "package:a package:b".toList :=
  ⟨by decide, by decide, by decide⟩

/-- C5 (amended): the parsed result consists of exactly the output lines
beginning with `"package:"`, in line order, each transformed by deleting
every occurrence of the substring `"package:"` and trimming surrounding
whitespace; lines without the tag are ignored.  Whenever the remainder of a
tagged line does not itself contain `"package:"` — in particular for all
real `pm` output — this coincides with removing the leading tag. -/
theorem C5_parse_amended (out : List Char)
    (h : ∀ line ∈ rustLines out, pkgTag.isPrefixOf line = true →
        containsSub pkgTag (line.drop pkgTag.length) = false) :
    parsePackageOutput out = parsePackageOutputClaimed out := by
  unfold parsePackageOutput parsePackageOutputClaimed
  apply List.filterMap_congr
  intro line hline
  by_cases hp : pkgTag.isPrefixOf line = true
  · rw [if_pos hp, if_pos hp]
    congr 1
    conv_lhs => rw [← isPrefixOf_append_drop pkgTag line hp]
    rw [removeAll_tag_prepend pkgTag (line.drop pkgTag.length) (by decide) (h line hline hp)]
  · rw [if_neg hp, if_neg hp]

theorem C5_parse_amended_witness :
    parsePackageOutput "package:com.foo\njunk\npackage:com.bar\n".toList =
      parsePackageOutputClaimed "package:com.foo\njunk\npackage:com.bar\n".toList :=
  C5_parse_amended "package:com.foo\njunk\npackage:com.bar\n".toList (by decide)

/-! ## `extract_apk` completion (for C9) -/

theorem extractApkGo_ok (materialized : Nat → List Char → Bool) :
    ∀ (names dir0 : List (List Char)) (i : Nat) (dirF : List (List Char)),
      extractApkGo materialized dir0 i names = Except.ok dirF →
      List.Sublist dir0 dirF ∧ ((∀ j p, materialized j p = false) → dirF = dir0) := by
  intro names
  induction names with
  | nil =>
    intro dir0 i dirF h
    simp only [extractApkGo] at h
    injection h with h
    subst h
    exact ⟨List.Sublist.refl dir0, fun _ => rfl⟩
  | cons p rest ih =>
    intro dir0 i dirF h
    simp only [extractApkGo] at h
    rcases hf : fileNameL p with _ | name
    · rw [hf] at h
      exact Except.noConfusion h
    · rw [hf] at h
      have h' : extractApkGo materialized
          (if materialized i p then
            (if dir0.contains (finalLocalNameL dir0 i name) then dir0
              else dir0 ++ [finalLocalNameL dir0 i name])
           else dir0) (i + 1) rest = Except.ok dirF := h
      by_cases hm : materialized i p = true
      · rw [if_pos hm] at h'
        by_cases hc : dir0.contains (finalLocalNameL dir0 i name) = true
        · rw [if_pos hc] at h'
          exact ih _ _ _ h'
        · rw [if_neg hc] at h'
          obtain ⟨hs, _⟩ := ih _ _ _ h'
          constructor
          · exact List.Sublist.trans (List.sublist_append_left dir0 _) hs
          · intro hf2
            rw [hf2 i p] at hm
            exact Bool.noConfusion hm
      · rw [if_neg hm] at h'
        exact ih _ _ _ h'

/-- C9 (counterexample): when every `adb pull` fails, `extract_apk` merely
warns and continues (`main.rs:377-392`) and finally returns `Ok(())`, so
the backup completes while the package subdirectory it created for a
package with one remote installer stays empty. -/
theorem C9_subdir_counterexample :
    extractApkGo (fun _ _ => false) [] 0 ["/x/base.apk".toList] = Except.ok [] ∧
      ["/x/base.apk".toList] ≠ ([] : List (List Char)) :=
  ⟨rfl, by decide⟩

/-- C9 (amended): a package subdirectory of a completed backup contains its
previous listing (as a sublist: files are only appended) plus the installer
files whose pulls succeeded — zero or more new files; when every pull
fails, no file is added, so a freshly created package subdirectory is left
empty. -/
theorem C9_subdir_amended (materialized : Nat → List Char → Bool)
    (names dir0 dirF : List (List Char)) (i : Nat)
    (h : extractApkGo materialized dir0 i names = Except.ok dirF) :
    List.Sublist dir0 dirF ∧ ((∀ j p, materialized j p = false) → dirF = dir0) :=
  extractApkGo_ok materialized names dir0 i dirF h

theorem C9_subdir_amended_witness :
    List.Sublist (["old.apk".toList] : List (List Char)) ["old.apk".toList] :=
  (C9_subdir_amended (fun _ _ => false) ["/x/base.apk".toList] ["old.apk".toList]
    ["old.apk".toList] 0 rfl).1

end Apktool
